import Mathlib

/-!
Verification of the sermon-hub ingestion and retrieval pipeline.

Shallow embedding of the pure cores of the repository:
chunker (`app/services/embeddings/chunker.py`),
transcript cleaner (`app/services/embeddings/cleaner.py`),
caption parser (`app/services/youtube/captions.py`),
search dedupe (`app/services/search/sermon_search.py`),
query expander (`app/services/search/query_expander.py`),
ingestion-status repository (`app/db/repositories/ingestion.py`) and the
orchestrator's per-video state transitions
(`app/services/ingestion/orchestrator.py`).
-/

namespace SermonHub

/-! ## Python string primitives -/

/-- Model of Python's `\s` class / `str.split()` separators (ASCII subset). -/
def pyIsSpace (c : Char) : Bool :=
  c = ' ' || c = '\t' || c = '\n' || c = '\r' || c = '\x0b' || c = '\x0c'

/-- Accumulator pass behind `pySplit`: words are maximal runs of
non-whitespace characters. -/
def pySplitAux : List Char → List Char → List (List Char)
  | [], acc => if acc.isEmpty then [] else [acc.reverse]
  | c :: cs, acc =>
    if pyIsSpace c then
      if acc.isEmpty then pySplitAux cs []
      else acc.reverse :: pySplitAux cs []
    else pySplitAux cs (c :: acc)

/-- Model of Python `str.split()` with no argument: split on whitespace runs,
dropping empty pieces. -/
def pySplit (s : String) : List String :=
  (pySplitAux s.data []).map String.mk

/-- Python list slicing `l[a:b]` with possibly negative indices. -/
def pySlice {α : Type} (l : List α) (a b : Int) : List α :=
  let n : Int := l.length
  let a' : Int := if a < 0 then max 0 (n + a) else min a n
  let b' : Int := if b < 0 then max 0 (n + b) else min b n
  (l.drop a'.toNat).take (b'.toNat - a'.toNat)

/-! ## Chunker (`chunker.py`) -/

/-- `Chunk` dataclass from `chunker.py`. -/
structure Chunk where
  video_id : String
  chunk_index : Nat
  text : String
  start_word : Int
  end_word : Int
deriving Repr, DecidableEq

/-- The `while start < len(words)` loop of `chunk_text`, with explicit fuel
(the Python loop is unbounded; `chunk_text` supplies enough fuel). -/
def chunkLoop (video_id : String) (words : List String)
    (chunk_size chunk_overlap : Int) :
    Nat → Int → Nat → List Chunk
  | 0, _, _ => []
  | fuel + 1, start, idx =>
    if start < (words.length : Int) then
      let e : Int := min (start + chunk_size) (words.length : Int)
      let c : Chunk :=
        { video_id := video_id
          chunk_index := idx
          text := String.intercalate " " (pySlice words start e)
          start_word := start
          end_word := e }
      let start2 : Int := e - chunk_overlap
      if start2 ≥ (words.length : Int) - chunk_overlap then [c]
      else c :: chunkLoop video_id words chunk_size chunk_overlap fuel start2 (idx + 1)
    else []

/-- `chunk_text` from `chunker.py` (with `chunk_size` / `chunk_overlap`
passed explicitly rather than read from settings). -/
def chunk_text (text : String) (video_id : String)
    (chunk_size chunk_overlap : Int) : List Chunk :=
  let words := pySplit text
  if words.isEmpty then []
  else chunkLoop video_id words chunk_size chunk_overlap (words.length + 1) 0 0

/-- Successive-chunk relation asserted by the spec: each chunk starts at the
previous chunk's `end_word` minus the overlap, and indices are sequential. -/
def chunkStep (chunk_overlap : Int) (a b : Chunk) : Prop :=
  b.start_word = a.end_word - chunk_overlap ∧ b.chunk_index = a.chunk_index + 1

/-! ## IngestionStatus repository (`app/db/repositories/ingestion.py`)

A row of the `ingestion_status` table (columns as in
`app/models/ingestion.py`); timestamps are ISO strings, as stored by the
repository. The table is a list of rows. -/

structure IngestionRow where
  id : Nat
  video_id : String
  status : String
  audio_path : Option String := none
  audio_format : Option String := none
  audio_size_bytes : Option Int := none
  transcript_path : Option String := none
  transcript_text : Option String := none
  error_message : Option String := none
  error_count : Nat := 0
  download_started_at : Option String := none
  download_completed_at : Option String := none
  transcription_started_at : Option String := none
  transcription_completed_at : Option String := none
  created_at : String := ""
  updated_at : String := ""
deriving Repr, DecidableEq

/-- One keyword argument of `IngestionRepository.update_status`: an
assignment to a settable column, or the magic `increment_error_count`
sentinel (whose SQL is `error_count = error_count + 1`). -/
inductive KwArg where
  | audio_path (v : String)
  | audio_format (v : String)
  | audio_size_bytes (v : Int)
  | transcript_path (v : String)
  | transcript_text (v : String)
  | error_message (v : String)
  | error_count (v : Nat)
  | download_started_at (v : String)
  | download_completed_at (v : String)
  | transcription_started_at (v : String)
  | transcription_completed_at (v : String)
  | increment_error_count
deriving Repr, DecidableEq

/-- Apply one `SET` field of the dynamic update query to a row. -/
def applyKwArg (r : IngestionRow) : KwArg → IngestionRow
  | .audio_path v => { r with audio_path := some v }
  | .audio_format v => { r with audio_format := some v }
  | .audio_size_bytes v => { r with audio_size_bytes := some v }
  | .transcript_path v => { r with transcript_path := some v }
  | .transcript_text v => { r with transcript_text := some v }
  | .error_message v => { r with error_message := some v }
  | .error_count v => { r with error_count := v }
  | .download_started_at v => { r with download_started_at := some v }
  | .download_completed_at v => { r with download_completed_at := some v }
  | .transcription_started_at v => { r with transcription_started_at := some v }
  | .transcription_completed_at v => { r with transcription_completed_at := some v }
  | .increment_error_count => { r with error_count := r.error_count + 1 }

/-- Row-level effect of `IngestionRepository.update_status`: set `status`
and `updated_at`, then the keyword fields. -/
def update_status_row (r : IngestionRow) (status now : String)
    (kwargs : List KwArg) : IngestionRow :=
  kwargs.foldl applyKwArg { r with status := status, updated_at := now }

/-- `IngestionRepository.update_status`: `UPDATE ... WHERE video_id = ?`. -/
def update_status (table : List IngestionRow) (vid status now : String)
    (kwargs : List KwArg) : List IngestionRow :=
  table.map (fun r =>
    if r.video_id = vid then update_status_row r status now kwargs else r)

/-- `IngestionRepository.set_downloading`. -/
def set_downloading (table : List IngestionRow) (vid now : String) :
    List IngestionRow :=
  update_status table vid "downloading" now [.download_started_at now]

/-- `IngestionRepository.set_downloaded`. -/
def set_downloaded (table : List IngestionRow) (vid now : String)
    (ap af : String) (asz : Int) : List IngestionRow :=
  update_status table vid "downloaded" now
    [.audio_path ap, .audio_format af, .audio_size_bytes asz,
     .download_completed_at now]

/-- `IngestionRepository.set_transcribing`. -/
def set_transcribing (table : List IngestionRow) (vid now : String) :
    List IngestionRow :=
  update_status table vid "transcribing" now [.transcription_started_at now]

/-- `IngestionRepository.set_completed`; `transcript_path` is only included
when truthy (Python `if transcript_path:` — `None` and `""` are falsy). -/
def set_completed (table : List IngestionRow) (vid now : String)
    (transcript_text : String) (transcript_path : Option String) :
    List IngestionRow :=
  update_status table vid "completed" now
    ([.transcript_text transcript_text, .transcription_completed_at now] ++
     (match transcript_path with
      | some p => if p.isEmpty then [] else [.transcript_path p]
      | none => []))

/-- `IngestionRepository.set_failed`. -/
def set_failed (table : List IngestionRow) (vid now : String)
    (error_message : String) : List IngestionRow :=
  update_status table vid "failed" now
    [.error_message error_message, .increment_error_count]

/-- `IngestionRepository.create`:
`INSERT INTO ingestion_status (video_id, status) VALUES (?, ?)
ON CONFLICT(video_id) DO NOTHING`. The remaining columns take their table
defaults (per `app/models/ingestion.py`: `error_count = 0`, nullable columns
`NULL`; `created_at`/`updated_at` from the insertion time). -/
def create (table : List IngestionRow) (vid : String)
    (status : String := "pending") (newId : Nat := 0) (now : String := "") :
    List IngestionRow :=
  if table.any (fun r => r.video_id == vid) then table
  else table ++ [{ id := newId, video_id := vid, status := status,
                   created_at := now, updated_at := now }]

/-- Ordering used by `list_failed`'s `ORDER BY updated_at`. -/
def updatedLe (a b : IngestionRow) : Prop := a.updated_at ≤ b.updated_at

instance : DecidableRel updatedLe := fun a b =>
  inferInstanceAs (Decidable (a.updated_at ≤ b.updated_at))

instance : IsTotal IngestionRow updatedLe :=
  ⟨fun a b => le_total a.updated_at b.updated_at⟩

instance : IsTrans IngestionRow updatedLe :=
  ⟨fun _ _ _ h1 h2 => le_trans h1 h2⟩

/-- Retry-eligibility predicate of `list_failed`'s `WHERE` clause. -/
def retryEligible (max_error_count : Nat) (r : IngestionRow) : Prop :=
  r.status = "failed" ∧ r.error_count < max_error_count

instance (m : Nat) : DecidablePred (retryEligible m) := fun r =>
  inferInstanceAs (Decidable (r.status = "failed" ∧ r.error_count < m))

/-- `IngestionRepository.list_failed`: rows with `status = 'failed'` and
`error_count < max_error_count`, `ORDER BY updated_at`, `LIMIT limit`. -/
def list_failed (table : List IngestionRow) (max_error_count : Nat)
    (lim : Nat) : List IngestionRow :=
  (List.insertionSort updatedLe
    (table.filter (fun r => decide (retryEligible max_error_count r)))).take lim

/-! ## Caption, download and transcription results

Timestamped segment as built by `_parse_vtt_to_text` (Python dict keys
`start`, `end`, `text`; `end` is spelt `stop` here because `end` is a Lean
keyword). Times are exact rationals standing for the parsed decimals. -/

structure VttSeg where
  start : ℚ
  stop : ℚ
  text : String
deriving Repr, DecidableEq

/-- A Python value stored in a result dict (a string or a segment list). -/
inductive PyValue where
  | str (s : String)
  | segList (segs : List VttSeg)
deriving Repr, DecidableEq

/-- String content of a `PyValue` (only ever used on `str` values). -/
def PyValue.asString : PyValue → String
  | .str s => s
  | .segList _ => ""

/-- The dict returned by a successful `_extract_captions_sync`
(`captions.py` lines 160–166): keys `video_id`, `source`, `text`,
`segments`, `language` — and nothing else. -/
structure CaptionResult where
  video_id : String
  source : String := "youtube_captions"
  text : String
  segments : List VttSeg
  language : String := "en"
deriving Repr, DecidableEq

/-- The caption result as the key/value dict the Python code builds. -/
def CaptionResult.toDict (r : CaptionResult) : List (String × PyValue) :=
  [("video_id", .str r.video_id),
   ("source", .str r.source),
   ("text", .str r.text),
   ("segments", .segList r.segments),
   ("language", .str r.language)]

/-- Python `d[k]` access: `some` value, or `none` for a `KeyError`. -/
def dictGet (d : List (String × PyValue)) (k : String) : Option PyValue :=
  (d.find? (fun kv => kv.1 == k)).map Prod.snd

/-- Outcome of `captions.extract_captions` as observed by the orchestrator:
an exception, no captions (`None`), or a caption result dict. -/
inductive CapOutcome where
  | raised
  | noCaptions
  | ok (r : CaptionResult)

/-- Failure modes of `downloader.download_audio`
(`app/services/youtube/exceptions.py`); `downloadTimeout` subclasses
`DownloadError` and is caught by the same `except DownloadError` clause. -/
inductive DownloadExc where
  | videoUnavailable (msg : String)
  | downloadError (msg : String)
  | downloadTimeout (msg : String)
deriving Repr, DecidableEq

/-- `str(e)` of a download exception. -/
def DownloadExc.msg : DownloadExc → String
  | .videoUnavailable m => m
  | .downloadError m => m
  | .downloadTimeout m => m

/-- The dict returned by a successful `downloader.download_audio`. -/
structure DownloadResult where
  video_id : String
  audio_path : String
  audio_format : String
  audio_size_bytes : Int
  title : Option String := none
  duration : Option Int := none
deriving Repr, DecidableEq

/-- Failure modes of `whisper_service.transcribe`
(`app/services/transcription/exceptions.py`); `_transcribe_video` catches
them all with `except Exception`. -/
inductive TranscriptionExc where
  | audioFileNotFound (msg : String)
  | modelLoadError (msg : String)
  | transcriptionFailed (msg : String)
deriving Repr, DecidableEq

/-- `str(e)` of a transcription exception. -/
def TranscriptionExc.msg : TranscriptionExc → String
  | .audioFileNotFound m => m
  | .modelLoadError m => m
  | .transcriptionFailed m => m

/-- The dict returned by a successful `whisper_service.transcribe`
(`whisper_service.py` lines 102–108): note it does carry
`transcript_path` / `transcript_text` keys, unlike the caption result. -/
structure TranscriptionResult where
  video_id : String
  transcript_path : String
  transcript_text : String
  segments : List VttSeg
  language : String := "en"
deriving Repr, DecidableEq

/-! ## Orchestrator per-video stages (`orchestrator.py`) -/

/-- `IngestionOrchestrator._get_captions`: mark `transcribing`, run the
extractor, and on a (truthy) result call
`set_completed(video_id, transcript_path=result["transcript_path"],
transcript_text=result["transcript_text"])`. The two key accesses are
modelled by `dictGet` on the dict the captions module actually returns;
a missing key is a `KeyError`, caught by the surrounding
`except Exception`, which resets the status to `pending`. -/
def get_captions (table : List IngestionRow) (vid now : String)
    (ext : CapOutcome) : List IngestionRow × Option CaptionResult :=
  let t1 := set_transcribing table vid now
  match ext with
  | .raised => (update_status t1 vid "pending" now [], none)
  | .noCaptions => (update_status t1 vid "pending" now [], none)
  | .ok r =>
    match dictGet r.toDict "transcript_path" with
    | none => (update_status t1 vid "pending" now [], none)
    | some tp =>
      match dictGet r.toDict "transcript_text" with
      | none => (update_status t1 vid "pending" now [], none)
      | some tt =>
        (set_completed t1 vid now tt.asString (some tp.asString), some r)

/-- `IngestionOrchestrator._download_video`: mark `downloading`, run the
download; on success record the audio columns and mark `downloaded`; the
`except VideoUnavailableError` and `except DownloadError` clauses (the
latter also catching the `DownloadTimeoutError` subclass) each call
`set_failed` with `str(e)` and return `None`. -/
def download_video (table : List IngestionRow) (vid now : String)
    (ext : Except DownloadExc DownloadResult) :
    List IngestionRow × Option DownloadResult :=
  let t1 := set_downloading table vid now
  match ext with
  | .ok r =>
    (set_downloaded t1 vid now r.audio_path r.audio_format r.audio_size_bytes,
     some r)
  | .error (.videoUnavailable m) => (set_failed t1 vid now m, none)
  | .error (.downloadError m) => (set_failed t1 vid now m, none)
  | .error (.downloadTimeout m) => (set_failed t1 vid now m, none)

/-- `IngestionOrchestrator._transcribe_video`: mark `transcribing`, run the
speech model, mark `completed` with the transcript columns; any exception is
caught by `except Exception`, which calls `set_failed` with `str(e)` and
returns `None`. -/
def transcribe_video (table : List IngestionRow) (vid audio_path now : String)
    (ext : Except TranscriptionExc TranscriptionResult) :
    List IngestionRow × Option TranscriptionResult :=
  let _ := audio_path
  let t1 := set_transcribing table vid now
  match ext with
  | .ok r =>
    (set_completed t1 vid now r.transcript_text (some r.transcript_path),
     some r)
  | .error e => (set_failed t1 vid now e.msg, none)

/-! ## Search pipeline dedupe (`sermon_search.py`, step 4) -/

/-- A raw vector match: Qdrant score plus the payload fields the search
loop reads (`video_id`, `text`, `chunk_index`). Scores are modelled as
rationals. -/
structure SearchPoint where
  score : ℚ
  video_id : String
  text : String
  chunk_index : Nat
deriving Repr, DecidableEq

/-- One entry of `unique_results` as built in the loop. -/
structure SearchHit where
  video_id : String
  score : ℚ
  matching_text : String
  chunk_index : Nat
deriving Repr, DecidableEq

/-- The dict appended to `unique_results` for a surviving point. -/
def mkHit (p : SearchPoint) : SearchHit :=
  { video_id := p.video_id, score := p.score, matching_text := p.text,
    chunk_index := p.chunk_index }

/-- The `for point in search_results.points` loop of
`SermonSearchService.search` step 4: skip sub-threshold scores, skip videos
already seen, append otherwise, and break once `limit` results are
collected. -/
def dedupeLoop (minScore : ℚ) (lim : Nat) :
    List SearchPoint → List String → List SearchHit → List SearchHit
  | [], _, acc => acc
  | p :: ps, seen, acc =>
    if p.score < minScore then dedupeLoop minScore lim ps seen acc
    else if p.video_id ∈ seen then dedupeLoop minScore lim ps seen acc
    else
      let acc' := acc ++ [mkHit p]
      if lim ≤ acc'.length then acc'
      else dedupeLoop minScore lim ps (seen ++ [p.video_id]) acc'

/-- Step 4 entry point: empty `seen_videos`, empty `unique_results`. -/
def searchDedupe (points : List SearchPoint) (minScore : ℚ) (lim : Nat) :
    List SearchHit :=
  dedupeLoop minScore lim points [] []

/-- Number of video ids in `pts` not yet in `seen` (distinct count). -/
def newIds : List SearchPoint → List String → Nat
  | [], _ => 0
  | p :: ps, seen =>
    if p.video_id ∈ seen then newIds ps seen
    else newIds ps (seen ++ [p.video_id]) + 1

/-- Concrete raw matches for the C5 witness: 9 points, 3 distinct videos,
descending scores. -/
def searchWitnessPoints : List SearchPoint :=
  [{ score := 9, video_id := "a", text := "ta1", chunk_index := 0 },
   { score := 8, video_id := "b", text := "tb1", chunk_index := 1 },
   { score := 7, video_id := "a", text := "ta2", chunk_index := 2 },
   { score := 6, video_id := "c", text := "tc1", chunk_index := 3 },
   { score := 5, video_id := "b", text := "tb2", chunk_index := 4 },
   { score := 4, video_id := "a", text := "ta3", chunk_index := 5 },
   { score := 3, video_id := "c", text := "tc2", chunk_index := 6 },
   { score := 2, video_id := "b", text := "tb3", chunk_index := 7 },
   { score := 1, video_id := "c", text := "tc3", chunk_index := 8 }]

/-! ## Query expander (`query_expander.py`) -/

/-- What the `try` block of `QueryExpander.expand_sync` observes: the whole
LLM interaction fails with some exception (missing `GROQ_API_KEY` raised by
the lazy `client` property, a network/API error, missing choices), or the
call succeeds and `response.choices[0].message.content` is `None` (so
`.strip()` raises `AttributeError`, also caught) or an actual string. -/
inductive LlmAttempt where
  | failure
  | success (content : Option String)

/-- Python `str.strip()`: drop leading and trailing whitespace. -/
def pyStripChars (l : List Char) : List Char :=
  ((l.dropWhile pyIsSpace).reverse.dropWhile pyIsSpace).reverse

/-- Python `str.strip()` on strings. -/
def pyStrip (s : String) : String := String.mk (pyStripChars s.data)

/-- `QueryExpander.expand_sync`: return the stripped LLM content, or — via
the `except Exception` fallback — the original `user_feeling` unmodified. -/
def expand_sync (attempt : LlmAttempt) (user_feeling : String) : String :=
  match attempt with
  | .failure => user_feeling
  | .success none => user_feeling
  | .success (some content) => pyStrip content

/-- Step 1 of `SermonSearchService.search`: the query actually embedded. -/
def search_query (expand_query : Bool) (attempt : LlmAttempt)
    (user_feeling : String) : String :=
  if expand_query then expand_sync attempt user_feeling else user_feeling

/-! ## Caption parser (`captions.py`, `_parse_vtt_to_text`) -/

/-- Python `str.split('\n')`: split at every separator, keeping empties. -/
def pySplitOnChar (sep : Char) : List Char → List (List Char)
  | [] => [[]]
  | c :: cs =>
    match pySplitOnChar sep cs with
    | [] => [[]]
    | w :: ws => if c = sep then [] :: w :: ws else (c :: w) :: ws

/-- Digit value of an ASCII digit character. -/
def digitVal (c : Char) : Nat := c.toNat - '0'.toNat

/-- Parse `hh:mm:ss.mmm` at the front of a line, returning the
`time_to_seconds` value (`float(h)*3600 + float(m)*60 + float(s.mmm)`) and
the remaining characters. -/
def parseTs : List Char → Option (ℚ × List Char)
  | h1 :: h2 :: ':' :: m1 :: m2 :: ':' :: s1 :: s2 :: '.' :: d1 :: d2 :: d3 :: rest =>
    if [h1, h2, m1, m2, s1, s2, d1, d2, d3].all Char.isDigit then
      some (((10 * digitVal h1 + digitVal h2 : ℚ) * 3600 +
             (10 * digitVal m1 + digitVal m2 : ℚ) * 60 +
             (10 * digitVal s1 + digitVal s2 : ℚ) +
             (100 * digitVal d1 + 10 * digitVal d2 + digitVal d3 : ℚ) / 1000),
            rest)
    else none
  | _ => none

/-- `timestamp_pattern.match(line)`: the anchored
`(\d\d:\d\d:\d\d\.\d\d\d) --> (\d\d:\d\d:\d\d\.\d\d\d)` pattern, with
trailing content ignored as `re.match` does. -/
def checkTimestampLine (line : List Char) : Option (ℚ × ℚ) :=
  match parseTs line with
  | none => none
  | some (t1, rest) =>
    match rest with
    | ' ' :: '-' :: '-' :: '>' :: ' ' :: rest2 =>
      match parseTs rest2 with
      | none => none
      | some (t2, _) => some (t1, t2)
    | _ => none

/-- `re.sub(r'<[^>]+>', '', line)`: drop `<...>` spans with at least one
non-`>` character inside (fuel bounds the scan; each step consumes a
character, so `length + 1` fuel suffices). -/
def removeTagsF : Nat → List Char → List Char
  | 0, l => l
  | _, [] => []
  | fuel + 1, c :: cs =>
    if c = '<' then
      let front := cs.takeWhile (fun d => d ≠ '>')
      match cs.dropWhile (fun d => d ≠ '>') with
      | '>' :: rest =>
        if front.isEmpty then '<' :: removeTagsF fuel cs
        else removeTagsF fuel rest
      | _ => '<' :: removeTagsF fuel cs
    else c :: removeTagsF fuel cs

/-- `re.sub(r'\[.*?\]', '', line)`: drop lazy `[...]` spans (possibly
empty inside, up to the first `]`). -/
def removeBracketsF : Nat → List Char → List Char
  | 0, l => l
  | _, [] => []
  | fuel + 1, c :: cs =>
    if c = '[' then
      match cs.dropWhile (fun d => d ≠ ']') with
      | ']' :: rest => removeBracketsF fuel rest
      | _ => '[' :: removeBracketsF fuel cs
    else c :: removeBracketsF fuel cs

/-- Caption-text cleanup applied to a non-timestamp line. -/
def cleanCaptionLine (l : List Char) : List Char :=
  pyStripChars (removeBracketsF (l.length + 1) (removeTagsF (l.length + 1) l))

/-- The per-line loop of `_parse_vtt_to_text`, building segments; the
in-progress segment is `(start, end, accumulated text)`. -/
def parseVttLines : List (List Char) → Option (ℚ × ℚ × List Char) → List VttSeg
  | [], cur =>
    match cur with
    | some (s, e, t) => if t.isEmpty then [] else [⟨s, e, String.mk t⟩]
    | none => []
  | line :: rest, cur =>
    let l := pyStripChars line
    if l.isEmpty || l = "WEBVTT".data || "Kind:".data.isPrefixOf l ||
        "Language:".data.isPrefixOf l then
      parseVttLines rest cur
    else
      match checkTimestampLine l with
      | some (t1, t2) =>
        (match cur with
         | some (s, e, t) => if t.isEmpty then [] else [⟨s, e, String.mk t⟩]
         | none => []) ++ parseVttLines rest (some (t1, t2, []))
      | none =>
        match cur with
        | none => parseVttLines rest none
        | some (s, e, t) =>
          let ct := cleanCaptionLine l
          if ct.isEmpty then parseVttLines rest (some (s, e, t))
          else if t.isEmpty then parseVttLines rest (some (s, e, ct))
          else parseVttLines rest (some (s, e, t ++ ' ' :: ct))

/-- The dedup pass: keep a segment only if its stripped text is non-empty
and not yet in `seen_texts`. -/
def dedupSegments : List VttSeg → List String → List VttSeg
  | [], _ => []
  | seg :: rest, seen =>
    let t := pyStrip seg.text
    if t.isEmpty then dedupSegments rest seen
    else if t ∈ seen then dedupSegments rest seen
    else seg :: dedupSegments rest (t :: seen)

/-- `re.sub(r'\s+', ' ', text)`: collapse every whitespace run to one
space (the flag tracks whether the previous character was whitespace). -/
def wsCollapseAux : Bool → List Char → List Char
  | _, [] => []
  | inSpace, c :: cs =>
    if pyIsSpace c then
      if inSpace then wsCollapseAux true cs
      else ' ' :: wsCollapseAux true cs
    else c :: wsCollapseAux false cs

/-- Whitespace-run collapse on a character list. -/
def wsCollapse (l : List Char) : List Char := wsCollapseAux false l

/-- `_parse_vtt_to_text`: returns `(full_text, segments)` — segments built
line by line, deduplicated by stripped text, and the full text joined from
the deduplicated segments then whitespace-normalized and stripped. -/
def parse_vtt_to_text (vtt : String) : String × List VttSeg :=
  let segments := parseVttLines (pySplitOnChar '\n' vtt.data) none
  let deduped := dedupSegments segments []
  let full := pyStrip (String.mk (wsCollapse
    (String.intercalate " " (deduped.map VttSeg.text)).data))
  (full, deduped)

/-! ## Transcript cleaner (`cleaner.py`)

All passes operate on character lists and are written with structural
recursion (fuel counters where the Python regex scan advances by more than
one character) so that concrete inputs evaluate inside the kernel. -/

/-- Python regex `\w` (ASCII subset): letters, digits, underscore. -/
def isWordChar (c : Char) : Bool := c.isAlphanum || c = '_'

/-- A maximal run of word characters or of non-word characters. -/
inductive TextSeg where
  | word (chars : List Char)
  | gap (chars : List Char)
deriving Repr, DecidableEq

/-- The characters of a segment. -/
def TextSeg.chars : TextSeg → List Char
  | .word cs => cs
  | .gap cs => cs

/-- Concatenate segments back into text. -/
def renderSegs (segs : List TextSeg) : List Char :=
  segs.foldr (fun s acc => s.chars ++ acc) []

/-- Split text into alternating maximal word/non-word runs (fuel: each
step consumes at least one character). -/
def lexSegsF : Nat → List Char → List TextSeg
  | 0, _ => []
  | _, [] => []
  | fuel + 1, c :: cs =>
    if isWordChar c then
      .word (c :: cs.takeWhile isWordChar) ::
        lexSegsF fuel (cs.dropWhile isWordChar)
    else
      .gap (c :: cs.takeWhile (fun d => !isWordChar d)) ::
        lexSegsF fuel (cs.dropWhile (fun d => !isWordChar d))

/-- Tokenize a character list. -/
def lexSegs (l : List Char) : List TextSeg := lexSegsF (l.length + 1) l

/-- Case-insensitive word equality (regex `re.IGNORECASE` backreference). -/
def lowerEq (a b : List Char) : Bool :=
  a.map Char.toLower == b.map Char.toLower

/-- Consume `(\s+\1)` repetitions after a word `w`: pairs of a pure
whitespace gap and a word equal to `w` case-insensitively. -/
def eatStutter (w : List Char) : List TextSeg → List TextSeg
  | .gap g :: .word w2 :: rest =>
    if g.all pyIsSpace && lowerEq w w2 then eatStutter w rest
    else .gap g :: .word w2 :: rest
  | segs => segs

/-- `re.sub(r'\b(\w+)(\s+\1){1,}\b', group(1), text, re.IGNORECASE)` over
the token list: a run of two or more whitespace-separated identical words
collapses to its first word. -/
def stutterSegsF : Nat → List TextSeg → List TextSeg
  | 0, segs => segs
  | _, [] => []
  | fuel + 1, .word w :: rest => .word w :: stutterSegsF fuel (eatStutter w rest)
  | fuel + 1, .gap g :: rest => .gap g :: stutterSegsF fuel rest

/-- `_remove_word_stuttering`. -/
def _remove_word_stuttering (t : List Char) : List Char :=
  renderSegs (stutterSegsF (t.length + 1) (lexSegs t))

/-- Is the token one of the filler interjections `uh|um|ah|er`
(case-insensitively, as a full `\b`-delimited token)? -/
def isFillerWord (w : List Char) : Bool :=
  let lw := w.map Char.toLower
  lw == "uh".data || lw == "um".data || lw == "ah".data || lw == "er".data

/-- Consume `(\s+\b(uh|um|ah|er)\b)` repetitions: whitespace gap plus any
filler token. -/
def eatFillers : List TextSeg → List TextSeg
  | .gap g :: .word w2 :: rest =>
    if g.all pyIsSpace && isFillerWord w2 then eatFillers rest
    else .gap g :: .word w2 :: rest
  | segs => segs

/-- First filler regex of `_clean_fillers`: a run of two or more
whitespace-separated filler tokens collapses to the first one. -/
def fillerRunsF : Nat → List TextSeg → List TextSeg
  | 0, segs => segs
  | _, [] => []
  | fuel + 1, .word w :: rest =>
    if isFillerWord w then .word w :: fillerRunsF fuel (eatFillers rest)
    else .word w :: fillerRunsF fuel rest
  | fuel + 1, .gap g :: rest => .gap g :: fillerRunsF fuel rest

/-- Try the case-sensitive literal alternation `(Uh|Um|Ah)`. -/
def matchFiller3 : List Char → Option (List Char)
  | 'U' :: 'h' :: rest => some rest
  | 'U' :: 'm' :: rest => some rest
  | 'A' :: 'h' :: rest => some rest
  | _ => none

/-- After the capitalized filler: `\s*,?\s*` (greedy, one optional comma). -/
def skipCommaWs (l : List Char) : List Char :=
  match l.dropWhile pyIsSpace with
  | ',' :: r => r.dropWhile pyIsSpace
  | r => r

/-- `re.sub(r'\.\s*(Uh|Um|Ah)\s*,?\s*', '. ', text)`: a sentence boundary
followed by a capitalized filler is replaced by `'. '`. -/
def fillerDotF : Nat → List Char → List Char
  | 0, l => l
  | _, [] => []
  | fuel + 1, c :: cs =>
    if c = '.' then
      match matchFiller3 (cs.dropWhile pyIsSpace) with
      | some rest1 => '.' :: ' ' :: fillerDotF fuel (skipCommaWs rest1)
      | none => '.' :: fillerDotF fuel cs
    else c :: fillerDotF fuel cs

/-- `re.sub(r'^(Uh|Um|Ah)\s*,?\s*', '', text)`: drop a leading capitalized
filler (anchored at the start of the string). -/
def fillerStart (l : List Char) : List Char :=
  match matchFiller3 l with
  | some rest1 => skipCommaWs rest1
  | none => l

/-- `_clean_fillers`: the three regex passes in source order. -/
def _clean_fillers (t : List Char) : List Char :=
  fillerStart (fillerDotF (t.length + 1)
    (renderSegs (fillerRunsF (t.length + 1) (lexSegs t))))

/-- The punctuation class `[.,!?]`. -/
def isPunct (c : Char) : Bool := c = '.' || c = ',' || c = '!' || c = '?'

/-- The lookahead class `[A-Za-z]`. -/
def isAsciiLetter (c : Char) : Bool :=
  (decide ('A' ≤ c) && decide (c ≤ 'Z')) ||
  (decide ('a' ≤ c) && decide (c ≤ 'z'))

/-- `re.sub(r'\s+([.,!?])', group(1), text)`: drop a whitespace run that
directly precedes punctuation; other whitespace runs are copied. -/
def rmSpacePunctF : Nat → List Char → List Char
  | 0, l => l
  | _, [] => []
  | fuel + 1, c :: cs =>
    if pyIsSpace c then
      match cs.dropWhile pyIsSpace with
      | d :: rest2 =>
        if isPunct d then d :: rmSpacePunctF fuel rest2
        else c :: (cs.takeWhile pyIsSpace ++ rmSpacePunctF fuel (cs.dropWhile pyIsSpace))
      | [] => c :: cs.takeWhile pyIsSpace
    else c :: rmSpacePunctF fuel cs

/-- `re.sub(r'([.,!?])(?=[A-Za-z])', group(1) + ' ', text)`: insert one
space after punctuation directly followed by a letter (the lookahead does
not consume). -/
def spaceAfterPunct : List Char → List Char
  | [] => []
  | c :: cs =>
    if isPunct c then
      match cs with
      | d :: _ =>
        if isAsciiLetter d then c :: ' ' :: spaceAfterPunct cs
        else c :: spaceAfterPunct cs
      | [] => [c]
    else c :: spaceAfterPunct cs

/-- `_normalize_whitespace`: collapse whitespace, fix spacing around
punctuation, strip. -/
def _normalize_whitespace (t : List Char) : List Char :=
  pyStripChars (spaceAfterPunct (rmSpacePunctF (t.length + 1) (wsCollapse t)))

/-- Join words with single spaces (Python `" ".join`). -/
def joinSpace : List (List Char) → List Char
  | [] => []
  | [w] => w
  | w :: ws => w ++ ' ' :: joinSpace ws

/-- The inner `for pattern_len in range(3, min(16, (len(words)-i)//2+1))`
scan: the first (smallest) length `L` whose block repeats immediately. -/
def findRepeatAux (words : List (List Char)) (i : Nat) :
    Nat → Nat → Option Nat
  | 0, _ => none
  | fuel + 1, L =>
    if L ≤ min 15 ((words.length - i) / 2) then
      if (words.drop i).take L == (words.drop (i + L)).take L then some L
      else findRepeatAux words i fuel (L + 1)
    else none

/-- The `while pos + pattern_len <= len(words)` repetition counter: final
scan position after skipping every consecutive copy of the block. -/
def skipRepeats (words : List (List Char)) (pattern : List (List Char))
    (L : Nat) : Nat → Nat → Nat
  | 0, pos => pos
  | fuel + 1, pos =>
    if decide (pos + L ≤ words.length) && ((words.drop pos).take L == pattern)
    then skipRepeats words pattern L fuel (pos + L)
    else pos

/-- The outer `while i < len(words)` loop of
`_remove_consecutive_duplicates` (fuel: `i` strictly increases). -/
def dedupWordsF (words : List (List Char)) : Nat → Nat → List (List Char)
  | 0, _ => []
  | fuel + 1, i =>
    if i < words.length then
      match findRepeatAux words i 13 3 with
      | some L =>
        let pattern := (words.drop i).take L
        pattern ++ dedupWordsF words fuel
          (skipRepeats words pattern L (words.length + 1) (i + L))
      | none => words.getD i [] :: dedupWordsF words fuel (i + 1)
    else []

/-- `_remove_consecutive_duplicates`: split into words, return the text
unchanged when fewer than 4 words, else scan for repeated 3–15-word blocks
and keep each block once, rejoining with single spaces. -/
def _remove_consecutive_duplicates (t : List Char) : List Char :=
  let words := pySplitAux t []
  if words.length < 4 then t
  else joinSpace (dedupWordsF words (words.length + 1) 0)

/-- `clean_transcript`: the four cleaning passes in source order (empty
input is returned unchanged). -/
def clean_transcript (s : String) : String :=
  if s = "" then s
  else String.mk (_normalize_whitespace (_clean_fillers
    (_remove_word_stuttering (_remove_consecutive_duplicates s.data))))

theorem chunkLoop_spec (vid : String) (words : List String)
    (size overlap : Int) (h0 : 0 ≤ overlap) (h1 : overlap < size) :
    ∀ (fuel : Nat) (start : Int) (idx : Nat),
      0 ≤ start → start < (words.length : Int) →
      (words.length : Int) ≤ start + fuel →
      (chunkLoop vid words size overlap fuel start idx ≠ [] ∧
       (∀ c0 ∈ (chunkLoop vid words size overlap fuel start idx).head?,
          c0.start_word = start ∧ c0.chunk_index = idx) ∧
       List.Chain' (chunkStep overlap)
         (chunkLoop vid words size overlap fuel start idx) ∧
       (∀ cl ∈ (chunkLoop vid words size overlap fuel start idx).getLast?,
          cl.end_word = (words.length : Int)) ∧
       (∀ c ∈ chunkLoop vid words size overlap fuel start idx,
          start ≤ c.start_word ∧ c.start_word < c.end_word ∧
          c.end_word ≤ (words.length : Int))) := by
  intro fuel
  induction fuel with
  | zero =>
    intro start idx hs0 hsn hfuel
    omega
  | succ fuel ih =>
    intro start idx hs0 hsn hfuel
    have hlt : start < (words.length : Int) := hsn
    simp only [chunkLoop, if_pos hlt]
    set n : Int := (words.length : Int) with hn
    set e : Int := min (start + size) n with he
    have hes : start < e := by
      have : start + 1 ≤ start + size := by omega
      simp only [he]
      omega
    have hen : e ≤ n := by simp only [he]; omega
    by_cases hbr : e - overlap ≥ n - overlap
    · -- break: this is the last chunk
      have hEn : e = n := by omega
      simp only [if_pos hbr]
      refine ⟨by simp, ?_, ?_, ?_, ?_⟩
      · intro c0 hc0
        simp only [List.head?_cons, Option.mem_def, Option.some.injEq] at hc0
        subst hc0; exact ⟨rfl, rfl⟩
      · simp [List.chain'_singleton]
      · intro cl hcl
        simp only [List.getLast?_singleton, Option.mem_def, Option.some.injEq] at hcl
        subst hcl; simpa using hEn
      · intro c hc
        simp only [List.mem_singleton] at hc
        subst hc
        exact ⟨le_refl _, hes, hen⟩
    · -- recursive case
      simp only [if_neg hbr]
      have hEfull : e = start + size := by
        by_contra hne
        have : e = n := by simp only [he] at *; omega
        omega
      have hs2 : e - overlap < n := by omega
      have hs20 : 0 ≤ e - overlap := by omega
      have hfuel2 : n ≤ (e - overlap) + fuel := by
        have : start + 1 ≤ e - overlap := by omega
        omega
      obtain ⟨hne, hhead, hchain, hlast, hmem⟩ :=
        ih (e - overlap) (idx + 1) hs20 hs2 hfuel2
      refine ⟨by simp, ?_, ?_, ?_, ?_⟩
      · intro c0 hc0
        simp only [List.head?_cons, Option.mem_def, Option.some.injEq] at hc0
        subst hc0; exact ⟨rfl, rfl⟩
      · rw [List.chain'_cons']
        refine ⟨?_, hchain⟩
        intro y hy
        have := hhead y hy
        exact ⟨this.1, this.2⟩
      · intro cl hcl
        cases hrest : chunkLoop vid words size overlap fuel (e - overlap) (idx + 1) with
        | nil => exact absurd hrest hne
        | cons a as =>
          rw [hrest, List.getLast?_cons_cons] at hcl
          exact hlast cl (by rw [hrest]; exact hcl)
      · intro c hc
        rcases List.mem_cons.mp hc with hc | hc
        · subst hc
          exact ⟨le_refl _, hes, hen⟩
        · obtain ⟨ha, hb, hcend⟩ := hmem c hc
          exact ⟨by omega, hb, hcend⟩

/-- C3: for chunk parameters `chunk_size > chunk_overlap ≥ 0`, `chunk_text`
produces chunks whose `(start_word, end_word)` ranges contiguously cover the
word sequence: the first chunk starts at word 0, each successive chunk starts
at the previous chunk's `end_word` minus `chunk_overlap` with sequential
indices from 0, every chunk is a nonempty in-bounds range, the last chunk's
`end_word` is the total word count, and the empty string yields zero chunks. -/
theorem chunk_text_contiguous_cover (text vid : String) (size overlap : Int)
    (h0 : 0 ≤ overlap) (h1 : overlap < size) :
    (text = "" → chunk_text text vid size overlap = []) ∧
    (pySplit text ≠ [] →
      chunk_text text vid size overlap ≠ [] ∧
      (∀ c0 ∈ (chunk_text text vid size overlap).head?,
         c0.start_word = 0 ∧ c0.chunk_index = 0) ∧
      List.Chain' (chunkStep overlap) (chunk_text text vid size overlap) ∧
      (∀ cl ∈ (chunk_text text vid size overlap).getLast?,
         cl.end_word = ((pySplit text).length : Int)) ∧
      (∀ c ∈ chunk_text text vid size overlap,
         0 ≤ c.start_word ∧ c.start_word < c.end_word ∧
         c.end_word ≤ ((pySplit text).length : Int))) := by
  constructor
  · intro h
    subst h
    rfl
  · intro hne
    have hlen : 0 < (pySplit text).length := List.length_pos.mpr hne
    have h := chunkLoop_spec vid (pySplit text) size overlap h0 h1
      ((pySplit text).length + 1) 0 0 le_rfl (by exact_mod_cast hlen)
      (by push_cast; omega)
    have hemp : (pySplit text).isEmpty = false := by
      simpa [List.isEmpty_iff] using hne
    simpa [chunk_text, hemp] using h

/-- Witness for C3: the spec's example, `chunk_size = 5`, `overlap = 2` on an
11-word text, yielding word ranges `[0,5], [3,8], [6,11]`. -/
theorem chunk_text_contiguous_cover_witness :
    ((chunk_text "a b c d e f g h i j k" "v" 5 2).map
        (fun c => (c.start_word, c.end_word)) = [(0, 5), (3, 8), (6, 11)]) ∧
    (pySplit "a b c d e f g h i j k" ≠ [] →
      chunk_text "a b c d e f g h i j k" "v" 5 2 ≠ [] ∧
      (∀ c0 ∈ (chunk_text "a b c d e f g h i j k" "v" 5 2).head?,
         c0.start_word = 0 ∧ c0.chunk_index = 0) ∧
      List.Chain' (chunkStep 2) (chunk_text "a b c d e f g h i j k" "v" 5 2) ∧
      (∀ cl ∈ (chunk_text "a b c d e f g h i j k" "v" 5 2).getLast?,
         cl.end_word = ((pySplit "a b c d e f g h i j k").length : Int)) ∧
      (∀ c ∈ chunk_text "a b c d e f g h i j k" "v" 5 2,
         0 ≤ c.start_word ∧ c.start_word < c.end_word ∧
         c.end_word ≤ ((pySplit "a b c d e f g h i j k").length : Int))) :=
  ⟨by decide,
   (chunk_text_contiguous_cover "a b c d e f g h i j k" "v" 5 2
      (by decide) (by decide)).2⟩

lemma foldl_applyKwArg_le (kwargs : List KwArg)
    (hkw : ∀ v, KwArg.error_count v ∉ kwargs) :
    ∀ r : IngestionRow, r.error_count ≤ (kwargs.foldl applyKwArg r).error_count := by
  induction kwargs with
  | nil => intro r; simp
  | cons k ks ih =>
    intro r
    have hkw' : ∀ v, KwArg.error_count v ∉ ks := fun v hv =>
      hkw v (List.mem_cons_of_mem _ hv)
    have h1 : r.error_count ≤ (applyKwArg r k).error_count := by
      cases k with
      | error_count v => exact absurd (List.mem_cons_self _ _) (hkw v)
      | increment_error_count => simp [applyKwArg]
      | _ => simp [applyKwArg]
    calc r.error_count ≤ (applyKwArg r k).error_count := h1
      _ ≤ _ := ih hkw' (applyKwArg r k)

lemma foldl_applyKwArg_eq (kwargs : List KwArg)
    (hkw : ∀ v, KwArg.error_count v ∉ kwargs)
    (hinc : KwArg.increment_error_count ∉ kwargs) :
    ∀ r : IngestionRow, (kwargs.foldl applyKwArg r).error_count = r.error_count := by
  induction kwargs with
  | nil => intro r; simp
  | cons k ks ih =>
    intro r
    have hkw' : ∀ v, KwArg.error_count v ∉ ks := fun v hv =>
      hkw v (List.mem_cons_of_mem _ hv)
    have hinc' : KwArg.increment_error_count ∉ ks := fun hv =>
      hinc (List.mem_cons_of_mem _ hv)
    have h1 : (applyKwArg r k).error_count = r.error_count := by
      cases k with
      | error_count v => exact absurd (List.mem_cons_self _ _) (hkw v)
      | increment_error_count => exact absurd (List.mem_cons_self _ _) hinc
      | _ => simp [applyKwArg]
    rw [List.foldl_cons, ih hkw' hinc', h1]

lemma forall₂_map_self {R : IngestionRow → IngestionRow → Prop}
    (f : IngestionRow → IngestionRow) (l : List IngestionRow)
    (h : ∀ a ∈ l, R a (f a)) : List.Forall₂ R l (l.map f) := by
  induction l with
  | nil => simp
  | cons a as ih =>
    simp only [List.map_cons]
    exact List.Forall₂.cons (h a (List.mem_cons_self _ _))
      (ih fun b hb => h b (List.mem_cons_of_mem _ hb))

/-- C6: `error_count` is monotone under every state-transition helper of the
ingestion repository. The successful transitions (`set_downloading`,
`set_downloaded`, `set_transcribing`, `set_completed`) leave `error_count`
of every row exactly unchanged; `update_status` with any keyword set not
assigning `error_count` directly never decreases it; `set_failed` increases
the targeted row's counter by exactly 1 and leaves the others unchanged. -/
theorem error_count_monotone (table : List IngestionRow)
    (vid now status ap af tt msg : String) (asz : Int) (tp : Option String)
    (kwargs : List KwArg) (hkw : ∀ v, KwArg.error_count v ∉ kwargs) :
    List.Forall₂ (fun a b => b.error_count = a.error_count) table
      (set_downloading table vid now) ∧
    List.Forall₂ (fun a b => b.error_count = a.error_count) table
      (set_downloaded table vid now ap af asz) ∧
    List.Forall₂ (fun a b => b.error_count = a.error_count) table
      (set_transcribing table vid now) ∧
    List.Forall₂ (fun a b => b.error_count = a.error_count) table
      (set_completed table vid now tt tp) ∧
    List.Forall₂ (fun a b => a.error_count ≤ b.error_count) table
      (update_status table vid status now kwargs) ∧
    List.Forall₂ (fun a b => b.error_count =
        if a.video_id = vid then a.error_count + 1 else a.error_count) table
      (set_failed table vid now msg) := by
  refine ⟨?_, ?_, ?_, ?_, ?_, ?_⟩
  · apply forall₂_map_self
    intro r _
    by_cases h : r.video_id = vid
    · simp [h, update_status_row, applyKwArg]
    · simp [h]
  · apply forall₂_map_self
    intro r _
    by_cases h : r.video_id = vid
    · simp [h, update_status_row, applyKwArg]
    · simp [h]
  · apply forall₂_map_self
    intro r _
    by_cases h : r.video_id = vid
    · simp [h, update_status_row, applyKwArg]
    · simp [h]
  · apply forall₂_map_self
    intro r _
    by_cases h : r.video_id = vid
    · simp only [h, if_pos]
      rw [update_status_row]
      apply foldl_applyKwArg_eq
      · intro v
        cases tp with
        | none => simp
        | some p => cases hp : p.isEmpty <;> simp [hp]
      · cases tp with
        | none => simp
        | some p => cases hp : p.isEmpty <;> simp [hp]
    · simp [h]
  · apply forall₂_map_self
    intro r _
    by_cases h : r.video_id = vid
    · simp only [h, if_pos]
      rw [update_status_row]
      exact foldl_applyKwArg_le kwargs hkw
        { r with status := status, updated_at := now }
    · simp [h]
  · apply forall₂_map_self
    intro r _
    by_cases h : r.video_id = vid
    · simp [h, set_failed, update_status_row, applyKwArg]
    · simp [h]

/-- Witness for C6 at a one-row table with an empty keyword set. -/
theorem error_count_monotone_witness :
    List.Forall₂ (fun a b => b.error_count = a.error_count)
      [{ id := 1, video_id := "v1", status := "pending" : IngestionRow }]
      (set_downloading
        [{ id := 1, video_id := "v1", status := "pending" : IngestionRow }]
        "v1" "t1") ∧
    List.Forall₂ (fun a b => b.error_count =
        if a.video_id = "v1" then a.error_count + 1 else a.error_count)
      [{ id := 1, video_id := "v1", status := "pending" : IngestionRow }]
      (set_failed
        [{ id := 1, video_id := "v1", status := "pending" : IngestionRow }]
        "v1" "t1" "boom") := by
  have h := error_count_monotone
    [{ id := 1, video_id := "v1", status := "pending" : IngestionRow }]
    "v1" "t1" "pending" "/a" "mp3" "text" "boom" 7 none []
    (by intro v hv; simp at hv)
  exact ⟨h.1, h.2.2.2.2.2⟩

/-- C7: `list_failed` returns exactly the retry-eligible rows — `status =
'failed'` and `error_count < max_error_count` — sorted oldest-`updated_at`
first and bounded by `limit`; when the eligible rows fit in the limit the
result is a permutation of them, so a failed row with `error_count = 2` is
included at `max_error_count = 3` while one with `error_count = 5` is not. -/
theorem list_failed_retry_selection (table : List IngestionRow)
    (maxec lim : Nat) :
    (∀ r ∈ list_failed table maxec lim,
       r ∈ table ∧ r.status = "failed" ∧ r.error_count < maxec) ∧
    List.Sorted updatedLe (list_failed table maxec lim) ∧
    (list_failed table maxec lim).length ≤ lim ∧
    ((table.filter (fun r => decide (retryEligible maxec r))).length ≤ lim →
       List.Perm (list_failed table maxec lim)
         (table.filter (fun r => decide (retryEligible maxec r)))) ∧
    (∀ r ∈ table, r.error_count = 5 → maxec = 3 →
       r ∉ list_failed table maxec lim) ∧
    (∀ r ∈ table, r.status = "failed" → r.error_count = 2 → maxec = 3 →
       (table.filter (fun r => decide (retryEligible maxec r))).length ≤ lim →
       r ∈ list_failed table maxec lim) := by
  have hsub : ∀ r ∈ list_failed table maxec lim,
      r ∈ table.filter (fun r => decide (retryEligible maxec r)) := by
    intro r hr
    have h1 : r ∈ List.insertionSort updatedLe
        (table.filter (fun r => decide (retryEligible maxec r))) :=
      (List.take_sublist _ _).mem hr
    exact (List.mem_insertionSort updatedLe).mp h1
  have hmem : ∀ r ∈ list_failed table maxec lim,
      r ∈ table ∧ r.status = "failed" ∧ r.error_count < maxec := by
    intro r hr
    have h2 := List.mem_filter.mp (hsub r hr)
    have h3 : retryEligible maxec r := of_decide_eq_true h2.2
    exact ⟨h2.1, h3.1, h3.2⟩
  have hperm : (table.filter (fun r => decide (retryEligible maxec r))).length ≤ lim →
      List.Perm (list_failed table maxec lim)
        (table.filter (fun r => decide (retryEligible maxec r))) := by
    intro hlen
    have hslen : (List.insertionSort updatedLe
        (table.filter (fun r => decide (retryEligible maxec r)))).length ≤ lim := by
      rw [List.length_insertionSort]
      exact hlen
    rw [list_failed, List.take_of_length_le hslen]
    exact List.perm_insertionSort _ _
  refine ⟨hmem, ?_, ?_, hperm, ?_, ?_⟩
  · exact (List.sorted_insertionSort updatedLe _).sublist (List.take_sublist _ _)
  · rw [list_failed, List.length_take]
    exact min_le_left _ _
  · intro r _ hec hmax hr
    have := (hmem r hr).2.2
    omega
  · intro r hrt hst hec hmax hlen
    have hin : r ∈ table.filter (fun r => decide (retryEligible maxec r)) := by
      rw [List.mem_filter]
      exact ⟨hrt, decide_eq_true (by exact ⟨hst, by omega⟩)⟩
    exact ((hperm hlen).mem_iff).mpr hin

/-- Witness for C7: a two-row table (`error_count` 5 and 2) with
`max_error_count = 3`, `limit = 100`. -/
theorem list_failed_retry_selection_witness :
    ({ id := 1, video_id := "a", status := "failed", error_count := 5 :
        IngestionRow } ∉
      list_failed
        [{ id := 1, video_id := "a", status := "failed", error_count := 5 },
         { id := 2, video_id := "b", status := "failed", error_count := 2 }]
        3 100) ∧
    ({ id := 2, video_id := "b", status := "failed", error_count := 2 :
        IngestionRow } ∈
      list_failed
        [{ id := 1, video_id := "a", status := "failed", error_count := 5 },
         { id := 2, video_id := "b", status := "failed", error_count := 2 }]
        3 100) := by
  have h := list_failed_retry_selection
    [{ id := 1, video_id := "a", status := "failed", error_count := 5 },
     { id := 2, video_id := "b", status := "failed", error_count := 2 }]
    3 100
  exact ⟨h.2.2.2.2.1 _ (by simp) rfl rfl,
    h.2.2.2.2.2 _ (by simp) rfl rfl rfl (by simp [retryEligible])⟩

/-- C10: `IngestionRepository.create` with `ON CONFLICT(video_id) DO NOTHING`
leaves the table — hence every field of the existing record — unchanged when
a row for the `video_id` already exists, so a channel re-sync's unconditional
`create` never resets a completed or failed video back to `pending`. -/
theorem create_noop_on_existing (table : List IngestionRow)
    (vid status now : String) (newId : Nat)
    (h : ∃ r ∈ table, r.video_id = vid) :
    create table vid status newId now = table := by
  rw [create, if_pos]
  obtain ⟨r, hr, hvid⟩ := h
  exact List.any_eq_true.mpr ⟨r, hr, by simp [hvid]⟩

/-- Witness for C10: creating over an existing `completed` row is a no-op. -/
theorem create_noop_on_existing_witness :
    create [{ id := 1, video_id := "v1", status := "completed" }]
        "v1" "pending" 2 "t2" =
      [{ id := 1, video_id := "v1", status := "completed" }] :=
  create_noop_on_existing
    [{ id := 1, video_id := "v1", status := "completed" }]
    "v1" "pending" "t2" 2
    ⟨{ id := 1, video_id := "v1", status := "completed" }, by simp, rfl⟩

/-- C1 (divergence witness): a pending video whose caption extraction
SUCCEEDS never reaches `completed`. The orchestrator accesses
`result["transcript_path"]` / `result["transcript_text"]`, keys the caption
module's result does not contain, so the `KeyError` lands in the
`except Exception` handler and the status is reset to `pending`; the
function returns `None`, so the caller falls through to the download
branch (which starts by setting `downloading`). -/
theorem get_captions_success_resets_to_pending
    (row : IngestionRow) (now : String) (r : CaptionResult) :
    dictGet r.toDict "transcript_path" = none ∧
    (get_captions [row] row.video_id now (.ok r)).2 = none ∧
    (∀ s ∈ (get_captions [row] row.video_id now (.ok r)).1,
       s.status = "pending" ∧ s.status ≠ "completed" ∧
       s.error_count = row.error_count) ∧
    (∀ s ∈ set_transcribing [row] row.video_id now,
       s.status = "transcribing") ∧
    (∀ s ∈ set_downloading (get_captions [row] row.video_id now (.ok r)).1
             row.video_id now,
       s.status = "downloading") := by
  refine ⟨rfl, ?_, ?_, ?_, ?_⟩
  all_goals
    simp [get_captions, dictGet, CaptionResult.toDict, set_transcribing,
      set_downloading, update_status, update_status_row, applyKwArg]

/-- C2: every failure of the download stage (any of the declared
`download_audio` failure modes — video unavailable, download error, or the
timeout subclass) and every failure of the transcription stage (any
`transcribe` exception, all caught by `except Exception`) writes the durable
status record before the helper returns `None` to the per-video loop:
status becomes `failed`, the stringified error is stored in
`error_message`, and `error_count` increases by exactly one. -/
theorem stage_failure_marks_failed (row : IngestionRow)
    (now audio_path : String) (e : DownloadExc) (e' : TranscriptionExc) :
    ((download_video [row] row.video_id now (.error e)).2 = none ∧
     ∀ s ∈ (download_video [row] row.video_id now (.error e)).1,
       s.status = "failed" ∧ s.error_message = some e.msg ∧
       s.error_count = row.error_count + 1) ∧
    ((transcribe_video [row] row.video_id audio_path now (.error e')).2 = none ∧
     ∀ s ∈ (transcribe_video [row] row.video_id audio_path now (.error e')).1,
       s.status = "failed" ∧ s.error_message = some e'.msg ∧
       s.error_count = row.error_count + 1) := by
  refine ⟨⟨?_, ?_⟩, ⟨?_, ?_⟩⟩
  · cases e <;> rfl
  · cases e <;>
      simp [download_video, DownloadExc.msg, set_downloading, set_failed,
        update_status, update_status_row, applyKwArg]
  · cases e' <;> rfl
  · cases e' <;>
      simp [transcribe_video, TranscriptionExc.msg, set_transcribing,
        set_failed, update_status, update_status_row, applyKwArg]

lemma newIds_eq_card (pts : List SearchPoint) : ∀ seen : List String,
    newIds pts seen =
      ((pts.map SearchPoint.video_id).toFinset \ seen.toFinset).card := by
  induction pts with
  | nil => intro seen; simp [newIds]
  | cons p ps ih =>
    intro seen
    rw [newIds]
    by_cases h : p.video_id ∈ seen
    · rw [if_pos h, ih seen]
      congr 1
      ext x
      simp only [List.map_cons, List.toFinset_cons, Finset.mem_sdiff,
        Finset.mem_insert, List.mem_toFinset]
      constructor
      · rintro ⟨hx, hs⟩; exact ⟨Or.inr hx, hs⟩
      · rintro ⟨hx | hx, hs⟩
        · subst hx; exact absurd h hs
        · exact ⟨hx, hs⟩
    · rw [if_neg h, ih (seen ++ [p.video_id])]
      have hset : ((p :: ps).map SearchPoint.video_id).toFinset \ seen.toFinset =
          insert p.video_id
            ((ps.map SearchPoint.video_id).toFinset \
              (seen ++ [p.video_id]).toFinset) := by
        ext x
        simp only [List.map_cons, List.toFinset_cons, Finset.mem_sdiff,
          Finset.mem_insert, List.mem_toFinset, List.mem_append,
          List.mem_singleton]
        constructor
        · rintro ⟨hx | hx, hs⟩
          · exact Or.inl hx
          · by_cases hxp : x = p.video_id
            · exact Or.inl hxp
            · exact Or.inr ⟨hx, fun hc => hc.elim hs hxp⟩
        · rintro (hx | ⟨hx, hs⟩)
          · subst hx; exact ⟨Or.inl rfl, h⟩
          · exact ⟨Or.inr hx, fun hc => hs (Or.inl hc)⟩
      rw [hset, Finset.card_insert_of_not_mem (by simp)]

lemma dedupeLoop_sublist (minScore : ℚ) (lim : Nat) :
    ∀ (pts : List SearchPoint) (seen : List String) (acc : List SearchHit),
      ∃ l : List SearchPoint, List.Sublist l pts ∧
        dedupeLoop minScore lim pts seen acc = acc ++ l.map mkHit := by
  intro pts
  induction pts with
  | nil => intro seen acc; exact ⟨[], List.Sublist.refl _, by simp [dedupeLoop]⟩
  | cons p ps ih =>
    intro seen acc
    rw [dedupeLoop]
    by_cases h1 : p.score < minScore
    · rw [if_pos h1]
      obtain ⟨l, hl, he⟩ := ih seen acc
      exact ⟨l, hl.cons p, he⟩
    · rw [if_neg h1]
      by_cases h2 : p.video_id ∈ seen
      · rw [if_pos h2]
        obtain ⟨l, hl, he⟩ := ih seen acc
        exact ⟨l, hl.cons p, he⟩
      · rw [if_neg h2]
        by_cases h3 : lim ≤ (acc ++ [mkHit p]).length
        · simp only [if_pos h3]
          exact ⟨[p], (List.nil_sublist ps).cons₂ p, by simp⟩
        · simp only [if_neg h3]
          obtain ⟨l, hl, he⟩ := ih (seen ++ [p.video_id]) (acc ++ [mkHit p])
          exact ⟨p :: l, hl.cons₂ p, by simp [he]⟩

lemma dedupeLoop_props (minScore : ℚ) (lim : Nat) :
    ∀ (pts : List SearchPoint) (seen : List String) (acc : List SearchHit),
      (∀ h ∈ acc, ¬ h.score < minScore) →
      (acc.map SearchHit.video_id).Nodup →
      (∀ v ∈ acc.map SearchHit.video_id, v ∈ seen) →
      (∀ h ∈ dedupeLoop minScore lim pts seen acc, ¬ h.score < minScore) ∧
      ((dedupeLoop minScore lim pts seen acc).map SearchHit.video_id).Nodup := by
  intro pts
  induction pts with
  | nil =>
    intro seen acc hsc hnd _
    exact ⟨by simpa [dedupeLoop] using hsc, by simpa [dedupeLoop] using hnd⟩
  | cons p ps ih =>
    intro seen acc hsc hnd hsub
    rw [dedupeLoop]
    by_cases h1 : p.score < minScore
    · rw [if_pos h1]; exact ih seen acc hsc hnd hsub
    · rw [if_neg h1]
      by_cases h2 : p.video_id ∈ seen
      · rw [if_pos h2]; exact ih seen acc hsc hnd hsub
      · rw [if_neg h2]
        have hsc' : ∀ h ∈ acc ++ [mkHit p], ¬ h.score < minScore := by
          intro h hh
          rcases List.mem_append.mp hh with hh | hh
          · exact hsc h hh
          · simp only [List.mem_singleton] at hh
            subst hh; exact h1
        have hnd' : ((acc ++ [mkHit p]).map SearchHit.video_id).Nodup := by
          rw [List.map_append, List.nodup_append]
          refine ⟨hnd, by simp [mkHit], ?_⟩
          intro v hv hv2
          simp only [List.map_cons, List.map_nil, List.mem_singleton, mkHit] at hv2
          exact h2 (hv2 ▸ hsub v hv)
        by_cases h3 : lim ≤ (acc ++ [mkHit p]).length
        · simp only [if_pos h3]
          exact ⟨hsc', hnd'⟩
        · simp only [if_neg h3]
          refine ih (seen ++ [p.video_id]) (acc ++ [mkHit p]) hsc' hnd' ?_
          intro v hv
          rw [List.map_append] at hv
          rcases List.mem_append.mp hv with hv | hv
          · exact List.mem_append_left _ (hsub v hv)
          · simp only [List.map_cons, List.map_nil, List.mem_singleton, mkHit] at hv
            subst hv; exact List.mem_append_right _ (by simp)

lemma dedupeLoop_le (minScore : ℚ) (lim : Nat) :
    ∀ (pts : List SearchPoint) (seen : List String) (acc : List SearchHit),
      acc.length < lim →
      (dedupeLoop minScore lim pts seen acc).length ≤ lim := by
  intro pts
  induction pts with
  | nil => intro seen acc hl; simpa [dedupeLoop] using hl.le
  | cons p ps ih =>
    intro seen acc hl
    rw [dedupeLoop]
    by_cases h1 : p.score < minScore
    · rw [if_pos h1]; exact ih seen acc hl
    · rw [if_neg h1]
      by_cases h2 : p.video_id ∈ seen
      · rw [if_pos h2]; exact ih seen acc hl
      · rw [if_neg h2]
        simp only [List.length_append, List.length_singleton]
        by_cases h3 : lim ≤ acc.length + 1
        · rw [if_pos h3]
          simp only [List.length_append, List.length_singleton]
          omega
        · rw [if_neg h3]
          refine ih _ _ ?_
          simp only [List.length_append, List.length_singleton]
          omega

lemma dedupeLoop_length (minScore : ℚ) (lim : Nat) :
    ∀ (pts : List SearchPoint) (seen : List String) (acc : List SearchHit),
      (∀ p ∈ pts, ¬ p.score < minScore) → acc.length < lim →
      (dedupeLoop minScore lim pts seen acc).length =
        min lim (acc.length + newIds pts seen) := by
  intro pts
  induction pts with
  | nil =>
    intro seen acc _ hl
    simp [dedupeLoop, newIds]
    omega
  | cons p ps ih =>
    intro seen acc hpass hl
    have h1 : ¬ p.score < minScore := hpass p (List.mem_cons_self _ _)
    have hpass' : ∀ q ∈ ps, ¬ q.score < minScore := fun q hq =>
      hpass q (List.mem_cons_of_mem _ hq)
    rw [dedupeLoop, if_neg h1, newIds]
    by_cases h2 : p.video_id ∈ seen
    · rw [if_pos h2, if_pos h2]
      exact ih seen acc hpass' hl
    · rw [if_neg h2, if_neg h2]
      simp only [List.length_append, List.length_singleton]
      by_cases h3 : lim ≤ acc.length + 1
      · rw [if_pos h3]
        simp only [List.length_append, List.length_singleton]
        omega
      · rw [if_neg h3]
        rw [ih (seen ++ [p.video_id]) (acc ++ [mkHit p]) hpass'
          (by simp only [List.length_append, List.length_singleton]; omega)]
        simp only [List.length_append, List.length_singleton]
        omega

lemma dedupeLoop_not_seen (minScore : ℚ) (lim : Nat) :
    ∀ (pts : List SearchPoint) (seen : List String) (acc : List SearchHit),
      ∀ h ∈ dedupeLoop minScore lim pts seen acc,
        h ∈ acc ∨ h.video_id ∉ seen := by
  intro pts
  induction pts with
  | nil =>
    intro seen acc h hh
    rw [dedupeLoop] at hh
    exact Or.inl hh
  | cons p ps ih =>
    intro seen acc h hh
    rw [dedupeLoop] at hh
    by_cases h1 : p.score < minScore
    · rw [if_pos h1] at hh
      exact ih seen acc h hh
    · rw [if_neg h1] at hh
      by_cases h2 : p.video_id ∈ seen
      · rw [if_pos h2] at hh
        exact ih seen acc h hh
      · rw [if_neg h2] at hh
        by_cases h3 : lim ≤ (acc ++ [mkHit p]).length
        · simp only [if_pos h3] at hh
          rcases List.mem_append.mp hh with hha | hha
          · exact Or.inl hha
          · simp only [List.mem_singleton] at hha
            subst hha
            exact Or.inr (by simpa [mkHit] using h2)
        · simp only [if_neg h3] at hh
          rcases ih _ _ h hh with hacc | hns
          · rcases List.mem_append.mp hacc with ha | ha
            · exact Or.inl ha
            · simp only [List.mem_singleton] at ha
              subst ha
              exact Or.inr (by simpa [mkHit] using h2)
          · exact Or.inr fun hc => hns (List.mem_append_left _ hc)

lemma dedupeLoop_min_score (minScore : ℚ) (lim : Nat) :
    ∀ (pts : List SearchPoint) (seen : List String) (acc : List SearchHit),
      (∀ h ∈ acc, ¬ h.score < minScore) →
      ∀ h ∈ dedupeLoop minScore lim pts seen acc, ¬ h.score < minScore := by
  intro pts
  induction pts with
  | nil =>
    intro seen acc hth h hh
    rw [dedupeLoop] at hh
    exact hth h hh
  | cons p ps ih =>
    intro seen acc hth h hh
    rw [dedupeLoop] at hh
    by_cases h1 : p.score < minScore
    · rw [if_pos h1] at hh
      exact ih seen acc hth h hh
    · rw [if_neg h1] at hh
      by_cases h2 : p.video_id ∈ seen
      · rw [if_pos h2] at hh
        exact ih seen acc hth h hh
      · rw [if_neg h2] at hh
        have hth' : ∀ h' ∈ acc ++ [mkHit p], ¬ h'.score < minScore := by
          intro h' hh'
          rcases List.mem_append.mp hh' with ha | ha
          · exact hth h' ha
          · simp only [List.mem_singleton] at ha
            subst ha
            exact h1
        by_cases h3 : lim ≤ (acc ++ [mkHit p]).length
        · simp only [if_pos h3] at hh
          exact hth' h hh
        · simp only [if_neg h3] at hh
          exact ih _ _ hth' h hh

lemma dedupeLoop_keeps_max (minScore : ℚ) (lim : Nat) :
    ∀ (pts : List SearchPoint) (seen : List String) (acc : List SearchHit),
      List.Pairwise (fun a b => b.score ≤ a.score) pts →
      (∀ h ∈ acc, ∀ p ∈ pts, p.score ≤ h.score) →
      (∀ h ∈ acc, ¬ h.score < minScore) →
      ∀ h ∈ dedupeLoop minScore lim pts seen acc,
        ∀ p ∈ pts, p.video_id = h.video_id → p.score ≤ h.score := by
  intro pts
  induction pts with
  | nil =>
    intro seen acc _ _ _ h _ p hp
    simp at hp
  | cons p ps ih =>
    intro seen acc hsort hdom hth h hh q hq hvid
    rw [dedupeLoop] at hh
    obtain ⟨hhead, htail⟩ := List.pairwise_cons.mp hsort
    have hdomtail : ∀ h' ∈ acc, ∀ p' ∈ ps, p'.score ≤ h'.score :=
      fun h' hh' p' hp' => hdom h' hh' p' (List.mem_cons_of_mem _ hp')
    by_cases h1 : p.score < minScore
    · rw [if_pos h1] at hh
      rcases List.mem_cons.mp hq with hq | hq
      · subst hq
        have hpass := dedupeLoop_min_score minScore lim ps seen acc hth h hh
        exact le_of_lt (lt_of_lt_of_le h1 (not_lt.mp hpass))
      · exact ih seen acc htail hdomtail hth h hh q hq hvid
    · rw [if_neg h1] at hh
      by_cases h2 : p.video_id ∈ seen
      · rw [if_pos h2] at hh
        rcases List.mem_cons.mp hq with hq | hq
        · subst hq
          rcases dedupeLoop_not_seen minScore lim ps seen acc h hh with hacc | hns
          · exact hdom h hacc q (List.mem_cons_self _ _)
          · exact absurd (hvid ▸ h2) hns
        · exact ih seen acc htail hdomtail hth h hh q hq hvid
      · rw [if_neg h2] at hh
        by_cases h3 : lim ≤ (acc ++ [mkHit p]).length
        · simp only [if_pos h3] at hh
          rcases List.mem_append.mp hh with hha | hha
          · exact hdom h hha q hq
          · simp only [List.mem_singleton] at hha
            subst hha
            rcases List.mem_cons.mp hq with hq | hq
            · subst hq
              exact le_refl _
            · exact hhead q hq
        · simp only [if_neg h3] at hh
          have hdom' : ∀ h' ∈ acc ++ [mkHit p], ∀ p' ∈ ps,
              p'.score ≤ h'.score := by
            intro h' hh' p' hp'
            rcases List.mem_append.mp hh' with ha | ha
            · exact hdom h' ha p' (List.mem_cons_of_mem _ hp')
            · simp only [List.mem_singleton] at ha
              subst ha
              exact hhead p' hp'
          have hth' : ∀ h' ∈ acc ++ [mkHit p], ¬ h'.score < minScore := by
            intro h' hh'
            rcases List.mem_append.mp hh' with ha | ha
            · exact hth h' ha
            · simp only [List.mem_singleton] at ha
              subst ha
              exact h1
          rcases List.mem_cons.mp hq with hq | hq
          · subst hq
            rcases dedupeLoop_not_seen minScore lim ps (seen ++ [q.video_id])
              (acc ++ [mkHit q]) h hh with hacc | hns
            · rcases List.mem_append.mp hacc with ha | ha
              · exact hdom h ha q (List.mem_cons_self _ _)
              · simp only [List.mem_singleton] at ha
                subst ha
                exact le_refl _
            · exact absurd
                (List.mem_append_right _ (List.mem_singleton.mpr hvid.symm)) hns
          · exact ih (seen ++ [p.video_id]) (acc ++ [mkHit p]) htail hdom' hth'
              h hh q hq hvid

lemma dedupeLoop_first_match (minScore : ℚ) (lim : Nat) :
    ∀ (pts : List SearchPoint) (seen : List String) (acc : List SearchHit),
      ∀ h ∈ dedupeLoop minScore lim pts seen acc, h ∉ acc →
        ∃ p, mkHit p = h ∧
          (pts.filter (fun q => !decide (q.score < minScore))).find?
            (fun q => q.video_id == h.video_id) = some p := by
  intro pts
  induction pts with
  | nil =>
    intro seen acc h hh hnacc
    rw [dedupeLoop] at hh
    exact absurd hh hnacc
  | cons p ps ih =>
    intro seen acc h hh hnacc
    rw [dedupeLoop] at hh
    by_cases h1 : p.score < minScore
    · rw [if_pos h1] at hh
      rw [List.filter_cons_of_neg (by simpa using h1)]
      exact ih seen acc h hh hnacc
    · rw [if_neg h1] at hh
      rw [List.filter_cons_of_pos (by simpa using h1)]
      by_cases h2 : p.video_id ∈ seen
      · rw [if_pos h2] at hh
        have hns : h.video_id ∉ seen := by
          rcases dedupeLoop_not_seen minScore lim ps seen acc h hh with ha | hns
          · exact absurd ha hnacc
          · exact hns
        have hne : ¬ (p.video_id == h.video_id) = true := by
          simp only [beq_iff_eq]
          intro hc
          exact hns (hc ▸ h2)
        have hfind : List.find? (fun q => q.video_id == h.video_id)
            (p :: ps.filter (fun q => !decide (q.score < minScore))) =
            List.find? (fun q => q.video_id == h.video_id)
              (ps.filter (fun q => !decide (q.score < minScore))) :=
          List.find?_cons_of_neg _ hne
        rw [hfind]
        exact ih seen acc h hh hnacc
      · rw [if_neg h2] at hh
        by_cases h3 : lim ≤ (acc ++ [mkHit p]).length
        · simp only [if_pos h3] at hh
          rcases List.mem_append.mp hh with hha | hha
          · exact absurd hha hnacc
          · simp only [List.mem_singleton] at hha
            subst hha
            exact ⟨p, rfl, List.find?_cons_of_pos _ (by simp [mkHit])⟩
        · simp only [if_neg h3] at hh
          by_cases hmem : h ∈ acc ++ [mkHit p]
          · rcases List.mem_append.mp hmem with hha | hha
            · exact absurd hha hnacc
            · simp only [List.mem_singleton] at hha
              subst hha
              exact ⟨p, rfl, List.find?_cons_of_pos _ (by simp [mkHit])⟩
          · have hns : h.video_id ∉ seen ++ [p.video_id] := by
              rcases dedupeLoop_not_seen minScore lim ps (seen ++ [p.video_id])
                (acc ++ [mkHit p]) h hh with ha | hns
              · exact absurd ha hmem
              · exact hns
            have hne : ¬ (p.video_id == h.video_id) = true := by
              simp only [beq_iff_eq]
              intro hc
              exact hns (List.mem_append_right _ (List.mem_singleton.mpr hc.symm))
            have hfind : List.find? (fun q => q.video_id == h.video_id)
                (p :: ps.filter (fun q => !decide (q.score < minScore))) =
                List.find? (fun q => q.video_id == h.video_id)
                  (ps.filter (fun q => !decide (q.score < minScore))) :=
              List.find?_cons_of_neg _ hne
            rw [hfind]
            exact ih (seen ++ [p.video_id]) (acc ++ [mkHit p]) h hh hmem

/-- C5: step 4 of the search pipeline. Every surviving result scores at
least `min_relevance_score`; at most one result is kept per `video_id`; the
kept results are a subsequence of the raw matches (ranked order), hence in
descending score order when the raw matches are; at most `limit` results
are produced; for 9 raw matches over exactly 3 distinct `video_id`s with
`limit = 3` and all scores at or above the threshold, exactly 3 results are
produced; the hit kept for a video scores at least as high as every raw
match of that video (it is the highest-ranked one); and it is exactly the
first — hence, with descending input, highest-ranked — above-threshold raw
match with that `video_id`. -/
theorem search_dedupe_threshold_unique_ranked
    (points : List SearchPoint) (minScore : ℚ) (lim : Nat)
    (hsorted : points.Pairwise (fun a b => b.score ≤ a.score))
    (hlim : 1 ≤ lim) :
    (∀ h ∈ searchDedupe points minScore lim, minScore ≤ h.score) ∧
    ((searchDedupe points minScore lim).map SearchHit.video_id).Nodup ∧
    List.Pairwise (fun a b => b.score ≤ a.score)
      (searchDedupe points minScore lim) ∧
    (searchDedupe points minScore lim).length ≤ lim ∧
    (points.length = 9 →
      (points.map SearchPoint.video_id).dedup.length = 3 → lim = 3 →
      (∀ p ∈ points, minScore ≤ p.score) →
      (searchDedupe points minScore lim).length = 3) ∧
    (∀ h ∈ searchDedupe points minScore lim, ∀ p ∈ points,
      p.video_id = h.video_id → p.score ≤ h.score) ∧
    (∀ h ∈ searchDedupe points minScore lim, ∃ p, mkHit p = h ∧
      (points.filter (fun q => !decide (q.score < minScore))).find?
        (fun q => q.video_id == h.video_id) = some p) := by
  have hprops := dedupeLoop_props minScore lim points [] []
    (by simp) (by simp) (by simp)
  refine ⟨?_, hprops.2, ?_, ?_, ?_, ?_, ?_⟩
  · intro h hh
    exact le_of_not_lt (hprops.1 h hh)
  · obtain ⟨l, hl, he⟩ := dedupeLoop_sublist minScore lim points [] []
    rw [searchDedupe, he, List.nil_append, List.pairwise_map]
    exact (hsorted.sublist hl).imp (fun hab => hab)
  · exact dedupeLoop_le minScore lim points [] [] (by simpa using hlim)
  · intro _ hdedup hl3 hpass
    have hlen := dedupeLoop_length minScore lim points [] []
      (fun p hp => not_lt.mpr (hpass p hp)) (by simpa using hlim)
    rw [searchDedupe, hlen, newIds_eq_card]
    have : ((points.map SearchPoint.video_id).toFinset \
        ([] : List String).toFinset).card = 3 := by
      rw [List.toFinset_nil, Finset.sdiff_empty, List.card_toFinset, hdedup]
    rw [this, hl3]
    simp
  · intro h hh p hp hvid
    exact dedupeLoop_keeps_max minScore lim points [] [] hsorted
      (by simp) (by simp) h hh p hp hvid
  · intro h hh
    exact dedupeLoop_first_match minScore lim points [] [] h hh (by simp)

/-- Witness for C5: the 9-match / 3-video / `limit = 3` scenario with
threshold 0 yields exactly 3 deduplicated results, each dominating every
same-video raw match. -/
theorem search_dedupe_threshold_unique_ranked_witness :
    ((searchDedupe searchWitnessPoints 0 3).map SearchHit.video_id).Nodup ∧
    List.Pairwise (fun a b => b.score ≤ a.score)
      (searchDedupe searchWitnessPoints 0 3) ∧
    (searchDedupe searchWitnessPoints 0 3).length = 3 ∧
    (∀ h ∈ searchDedupe searchWitnessPoints 0 3, ∀ p ∈ searchWitnessPoints,
      p.video_id = h.video_id → p.score ≤ h.score) := by
  have h := search_dedupe_threshold_unique_ranked searchWitnessPoints 0 3
    (by decide) (by decide)
  exact ⟨h.2.1, h.2.2.1,
    h.2.2.2.2.1 (by decide) (by decide) rfl (by decide), h.2.2.2.2.2.1⟩

/-- C8: `expand_sync` is total (never raises to its caller) and on any
failure — exception anywhere in the LLM call, or a malformed response with
`None` content — returns the input unmodified; the search pipeline then
proceeds with exactly that literal query, and on success it embeds the
stripped LLM output. -/
theorem expand_falls_back_to_input (user_feeling : String) :
    expand_sync .failure user_feeling = user_feeling ∧
    expand_sync (.success none) user_feeling = user_feeling ∧
    (∀ a : LlmAttempt, search_query true a user_feeling =
      expand_sync a user_feeling) ∧
    search_query true .failure user_feeling = user_feeling ∧
    (∀ c, expand_sync (.success (some c)) user_feeling = pyStrip c) :=
  ⟨rfl, rfl, fun _ => rfl, rfl, fun _ => rfl⟩

lemma dedupSegments_nodup : ∀ (segs : List VttSeg) (seen : List String),
    ((dedupSegments segs seen).map (fun s => pyStrip s.text)).Nodup ∧
    (∀ t ∈ (dedupSegments segs seen).map (fun s => pyStrip s.text),
      t ∉ seen) := by
  intro segs
  induction segs with
  | nil => intro seen; simp [dedupSegments]
  | cons seg rest ih =>
    intro seen
    rw [dedupSegments]
    by_cases h1 : (pyStrip seg.text).isEmpty
    · simp only [h1, if_pos]
      exact ih seen
    · simp only [h1, Bool.false_eq_true, if_false]
      by_cases h2 : pyStrip seg.text ∈ seen
      · rw [if_pos h2]
        exact ih seen
      · rw [if_neg h2]
        obtain ⟨ihn, ihs⟩ := ih (pyStrip seg.text :: seen)
        constructor
        · rw [List.map_cons, List.nodup_cons]
          exact ⟨fun hmem => ihs _ hmem (List.mem_cons_self _ _), ihn⟩
        · intro t ht
          rw [List.map_cons, List.mem_cons] at ht
          rcases ht with ht | ht
          · subst ht; exact h2
          · exact fun hc => ihs t ht (List.mem_cons_of_mem _ hc)

/-- C9: in the parsed caption track, no two output segments share the same
(stripped) text — a duplicated caption text survives only once — and the
returned full text is assembled from exactly the deduplicated segments'
texts (joined, whitespace-collapsed, stripped). -/
theorem parse_vtt_dedup_segments (vtt : String) :
    ((parse_vtt_to_text vtt).2.map (fun s => pyStrip s.text)).Nodup ∧
    (parse_vtt_to_text vtt).1 = pyStrip (String.mk (wsCollapse
      (String.intercalate " "
        ((parse_vtt_to_text vtt).2.map VttSeg.text)).data)) :=
  ⟨(dedupSegments_nodup _ []).1, rfl⟩

/-- C4 counterexample: `clean_transcript` is not idempotent. On
`"x y z,x y z,"` the first pass only normalizes punctuation spacing
(`"z,x"` becomes `"z, x"`), splitting a token and exposing the 3-word block
`x y z,` as an immediate repeat; the second pass then removes it:
`clean("x y z,x y z,") = "x y z, x y z,"` but cleaning again gives
`"x y z,"`. -/
theorem clean_transcript_not_idempotent :
    clean_transcript (clean_transcript "x y z,x y z,") ≠
      clean_transcript "x y z,x y z," := by decide

/-- C4 amended: re-applying `clean_transcript` is in general not a no-op
(punctuation normalization can split tokens and expose new repeated
phrases to a later pass); on the empty string and on punctuation-free
caption text such as the spec's own cleaning example, a second application
is a fixed point. -/
theorem clean_transcript_idempotent_on_example :
    clean_transcript "" = "" ∧
    clean_transcript
        "he he he said I want to share I want to share I want to share something" =
      "he said I want to share something" ∧
    clean_transcript (clean_transcript
        "he he he said I want to share I want to share I want to share something") =
      clean_transcript
        "he he he said I want to share I want to share I want to share something" :=
  ⟨rfl, by decide, by decide⟩

/-- Witness for C2 at a concrete pending row and a concrete timeout
failure (the timeout is caught via its `DownloadError` superclass). -/
theorem stage_failure_marks_failed_witness :
    (download_video [{ id := 1, video_id := "v1", status := "pending" }]
        "v1" "t" (.error (.downloadTimeout "slow"))).2 = none ∧
    ∀ s ∈ (download_video [{ id := 1, video_id := "v1", status := "pending" }]
        "v1" "t" (.error (.downloadTimeout "slow"))).1,
      s.status = "failed" ∧ s.error_message = some "slow" ∧
      s.error_count = 1 := by
  have h := stage_failure_marks_failed
    { id := 1, video_id := "v1", status := "pending" } "t" "/a.mp3"
    (.downloadTimeout "slow") (.transcriptionFailed "x")
  exact ⟨h.1.1, h.1.2⟩

end SermonHub
